import Mathlib

/-!
Shallow embedding of the streaming transcription assembly pipeline of the
raspberry-pi transcription scripts (`transcribe.py` and the Hailo variant
`raspberry-pi-5/transcribe-halo.py`).

Strings are modelled by Lean `String` (lists of characters); the
whitespace set is the ASCII portion of Python's `str.split` / `\s`
whitespace.  Sample amplitudes and thresholds are modelled by `ℚ`
(the scripts use IEEE floats; rationals give the same comparison
structure for the stated properties).  The speech model, microphone and
file system are external collaborators: the session-loop model takes the
captured samples and the raw transcription of each iteration as inputs.
-/

/-- ASCII whitespace characters, as recognised by Python's `str.split()`,
`str.strip()` and the regex class `\s`. -/
def isSpace (c : Char) : Bool :=
  c = ' ' || c = '\t' || c = '\n' || c = '\r' || c = '\x0b' || c = '\x0c'

/-- Worker for Python `str.split()` with no separator: splits on runs of
whitespace and drops empty pieces.  `acc` holds the characters of the word
currently being read, in reverse order. -/
def wordsAux : List Char → List Char → List (List Char)
  | acc, [] => if acc = [] then [] else [acc.reverse]
  | acc, c :: cs =>
    if isSpace c then
      if acc = [] then wordsAux [] cs else acc.reverse :: wordsAux [] cs
    else
      wordsAux (c :: acc) cs

/-- Python `text.split()`: whitespace-separated words, empty pieces dropped. -/
def pySplit (s : String) : List String :=
  (wordsAux [] s.data).map (fun w => ⟨w⟩)

/-- Python `' '.join` at character level. -/
def joinWords : List (List Char) → List Char
  | [] => []
  | [w] => w
  | w :: ws => w ++ ' ' :: joinWords ws

/-- Python `' '.join(words)`. -/
def pyJoin (ws : List String) : String :=
  ⟨joinWords (ws.map String.data)⟩

/-- One pass of `re.sub(r'\s+', ' ', text)`: every maximal run of whitespace
becomes a single `' '`.  The Boolean flag records whether the previous
character was whitespace (i.e. whether we are inside a run). -/
def collapseAux : Bool → List Char → List Char
  | _, [] => []
  | prevSpace, c :: cs =>
    if isSpace c then
      if prevSpace then collapseAux true cs else ' ' :: collapseAux true cs
    else
      c :: collapseAux false cs

/-- Drop leading whitespace. -/
def stripLead (l : List Char) : List Char := l.dropWhile isSpace

/-- Drop trailing whitespace. -/
def stripTrail (l : List Char) : List Char := (l.reverse.dropWhile isSpace).reverse

/-- Python `text.strip()` (ASCII whitespace). -/
def pyStrip (s : String) : String := ⟨stripTrail (stripLead s.data)⟩

/-- Python `text.lower()`, character by character (ASCII case folding). -/
def pyLower (s : String) : String := ⟨s.data.map Char.toLower⟩

/-- `normalize_whitespace` from `transcribe-halo.py`:
`text = re.sub(r'\s+', ' ', text); text = text.strip()`. -/
def normalize_whitespace (s : String) : String :=
  ⟨stripTrail (stripLead (collapseAux false s.data))⟩

/-- Decides whether `√m > t` for `0 ≤ m`, entirely inside `ℚ`:
`√m > t ↔ t < 0 ∨ t·t < m`.  This embeds the float comparison
`np.sqrt(np.mean(audio_data**2)) > threshold` without leaving the
rationals. -/
def sqrtGt (m t : ℚ) : Bool :=
  decide (t < 0) || decide (t * t < m)

/-- `np.mean(audio_data**2)` over a chunk of samples. -/
def meanSq (xs : List ℚ) : ℚ :=
  ((xs.map (fun x => x * x)).sum) / (xs.length : ℚ)

/-- `np.max(np.abs(audio_data))` (0 on the empty list; the scripts only
apply it to nonempty capture buffers). -/
def maxAbs (xs : List ℚ) : ℚ :=
  (xs.map (fun x => |x|)).foldr max 0

/-- `has_sufficient_audio` from `transcribe-halo.py` (OR composition):
`rms > threshold or max_amp > threshold * 3`. -/
def has_sufficient_audio_halo (xs : List ℚ) (threshold : ℚ) : Bool :=
  sqrtGt (meanSq xs) threshold || decide (maxAbs xs > threshold * 3)

/-- `has_sufficient_audio` from `transcribe.py` (AND composition):
`rms > threshold and max_amp > threshold * 10`. -/
def has_sufficient_audio_cpu (xs : List ℚ) (threshold : ℚ) : Bool :=
  sqrtGt (meanSq xs) threshold && decide (maxAbs xs > threshold * 10)

/-- Correctness of the rational embedding of the RMS comparison: for a
nonnegative mean square, `sqrtGt m t` decides `√m > t`. -/
lemma sqrtGt_iff_real (m t : ℚ) (hm : 0 ≤ m) :
    sqrtGt m t = true ↔ (t : ℝ) < Real.sqrt (m : ℝ) := by
  unfold sqrtGt
  rcases lt_or_le t 0 with h | h
  · constructor
    · intro _
      calc (t : ℝ) < 0 := by exact_mod_cast h
        _ ≤ Real.sqrt (m : ℝ) := Real.sqrt_nonneg _
    · intro _
      simp [h]
  · have h1 : ¬ (t < 0) := not_lt.mpr h
    simp only [h1, decide_eq_true_eq]
    rw [Real.lt_sqrt (by exact_mod_cast h),
      show ((t : ℝ)) ^ 2 = ((t * t : ℚ) : ℝ) by push_cast; ring]
    simp only [Bool.or_eq_true, decide_eq_true_eq]
    constructor
    · rintro (hf | hlt)
      · exact hf.elim
      · exact_mod_cast hlt
    · intro hlt
      exact Or.inr (by exact_mod_cast hlt)

/-- `is_repetition` from the scripts (both variants compute identically):
guard on empty strings, lowercase and split both texts, guard on fewer
than 3 new words, join the trailing `min(len(prev_words), 10)` previous
words into `prev_end`, count the new words occurring in
`prev_end.split()`, and compare the ratio against the threshold.
Python's `prev_words[-check_length:]` is `drop (length - check_length)`;
the two agree even when `check_length = 0`, which happens only for an
empty word list. -/
def is_repetition (new_text previous_text : String) (threshold : ℚ) : Bool :=
  if previous_text = "" ∨ new_text = "" then false
  else
    let new_words := pySplit (pyLower new_text)
    let prev_words := pySplit (pyLower previous_text)
    if new_words.length < 3 then false
    else
      let check_length := min prev_words.length 10
      let prev_end := pyJoin (prev_words.drop (prev_words.length - check_length))
      let matching_words :=
        (new_words.filter (fun word => decide (word ∈ pySplit prev_end))).length
      let similarity :=
        if new_words = [] then (0 : ℚ) else (matching_words : ℚ) / new_words.length
      decide (similarity > threshold)

/-- The repetition policy exactly as the specification words it: empty
strings and texts of fewer than 3 words are never repetitions; otherwise
count how many of the new words appear anywhere among the trailing
`min(len(previous_words), 10)` previous words and compare
`matches / word_count` against the threshold. -/
def repetitionSpec (new_text previous_text : String) (threshold : ℚ) : Bool :=
  if previous_text = "" ∨ new_text = "" then false
  else
    let new_words := pySplit (pyLower new_text)
    let prev_words := pySplit (pyLower previous_text)
    if new_words.length < 3 then false
    else
      let window := prev_words.drop (prev_words.length - min prev_words.length 10)
      let matchCount := (new_words.filter (fun word => decide (word ∈ window))).length
      decide ((matchCount : ℚ) / new_words.length > threshold)

/-- The scanning loop of `remove_overlap`: try `i = k, k-1, ..., 1` and
return the first `i` such that the last `i` previous words equal the
first `i` new words (`previous_words[-i:] == new_words[:i]`), or `0`.
For `1 ≤ i ≤ previous_words.length`, `previous_words[-i:]` is
`drop (length - i)`. -/
def overlapLen (previous_words new_words : List String) : ℕ → ℕ
  | 0 => 0
  | i + 1 =>
    if previous_words.drop (previous_words.length - (i + 1)) = new_words.take (i + 1) then
      i + 1
    else
      overlapLen previous_words new_words i

/-- `remove_overlap` from `transcribe-halo.py`: strip from the front of
`new_text` the longest overlap (up to `overlap_words` words) with the tail
of `previous_words`, and return the remaining words space-joined. -/
def remove_overlap (new_text : String) (previous_words : List String)
    (overlap_words : ℕ) : String :=
  if previous_words = [] ∨ new_text = "" then new_text
  else
    let new_words := pySplit new_text
    let max_check := min (min new_words.length previous_words.length) overlap_words
    let overlap_count := overlapLen previous_words new_words max_check
    let new_words := if overlap_count > 0 then new_words.drop overlap_count else new_words
    pyJoin new_words

/-- The largest `i ≤ k` with `previous_words[-i:] == new_words[:i]`, or 0:
the specification of the overlap length, via `Nat.findGreatest`. -/
def overlapSpec (previous_words new_words : List String) (k : ℕ) : ℕ :=
  Nat.findGreatest
    (fun i => previous_words.drop (previous_words.length - i) = new_words.take i) k

/-- The session configuration fields the loop reads
(`HailoTranscriptionConfig` defaults). -/
structure Config where
  chunk_duration : ℚ
  min_audio_energy : ℚ
  min_words : ℕ
  overlap_words : ℕ
  max_context_chunks : ℕ

/-- Defaults from `HailoTranscriptionConfig.__init__`: 7 s chunks,
energy 0.0002, `min_words = 1`, `overlap_words = 5`,
`max_context_chunks = 4`. -/
def defaultConfig : Config :=
  { chunk_duration := 7
    min_audio_energy := 2 / 10000
    min_words := 1
    overlap_words := 5
    max_context_chunks := 4 }

/-- The mutable per-session state of the loop in `run_transcription`.
`displayed` models the text printed so far (the progressive display). -/
structure SessionState where
  context_buffer : List String
  segment_num : ℕ
  first_output : Bool
  last_text : String
  last_words : List String
  total_audio_duration : ℚ
  total_words : ℕ
  displayed : String

/-- The state at session start. -/
def initialState : SessionState :=
  { context_buffer := []
    segment_num := 0
    first_output := true
    last_text := ""
    last_words := []
    total_audio_duration := 0
    total_words := 0
    displayed := "" }

/-- One iteration of the `run_transcription` loop in `transcribe-halo.py`,
with the audio capture and the Hailo transcriber treated as external
collaborators: `chunk` is the captured (mixed-down, resampled, pre-gain)
sample buffer and `raw` the raw transcription of the processed chunk.
The segment counter and the audio-duration counter are bumped before the
energy gate, exactly as in the source; every validation failure skips the
rest of the iteration (`continue`), and acceptance updates the context
buffer (FIFO eviction), the display, `last_text`/`last_words` and the
word counter.  The repetition threshold is the source default `0.7`. -/
def step (cfg : Config) (st : SessionState) (chunk : List ℚ) (raw : String) :
    SessionState :=
  let st1 := { st with
    segment_num := st.segment_num + 1
    total_audio_duration := st.total_audio_duration + cfg.chunk_duration }
  if ¬ has_sufficient_audio_halo chunk cfg.min_audio_energy then st1
  else
    let text := normalize_whitespace raw
    if text = "" then st1
    else
      let word_count := (pySplit text).length
      if word_count < cfg.min_words then st1
      else if is_repetition text st1.last_text (7 / 10) then st1
      else
        let deduplicated_text := remove_overlap text st1.last_words cfg.overlap_words
        if pyStrip deduplicated_text ≠ "" then
          let cb := st1.context_buffer ++ [text]
          let cb := if cb.length > cfg.max_context_chunks then cb.drop 1 else cb
          { st1 with
            context_buffer := cb
            displayed := st1.displayed ++
              (if ¬ st1.first_output then " " ++ deduplicated_text else deduplicated_text)
            first_output := false
            last_text := text
            last_words := pySplit text
            total_words := st1.total_words + (pySplit deduplicated_text).length }
        else st1

/-- A whole session: fold `step` over the per-iteration inputs. -/
def runSession (cfg : Config) (st : SessionState)
    (inputs : List (List ℚ × String)) : SessionState :=
  inputs.foldl (fun s p => step cfg s p.1 p.2) st

/-- Renders a rational with two decimal places, as Python's `f'{x:.2f}'`
(up to tie-breaking of exact half-cents, where binary floats decide). -/
def formatFixed2 (q : ℚ) : String :=
  let n : ℤ := ⌊q * 100 + 1 / 2⌋
  let sign := if n < 0 then "-" else ""
  let m := n.natAbs
  let frac := m % 100
  sign ++ toString (m / 100) ++ "." ++
    (if frac < 10 then "0" ++ toString frac else toString frac)

/-- The realtime speed factor as reported on session stop: the source
prints `f'Speed Factor: {speed_factor:.2f}x real-time'` with
`speed_factor = total_audio_duration / elapsed_time`, guarded by
`total_audio_duration > 0`; this models the formatted factor itself. -/
def speedFactorReport (total_audio_duration elapsed_time : ℚ) : Option String :=
  if total_audio_duration > 0 then
    some (formatFixed2 (total_audio_duration / elapsed_time) ++ "x")
  else
    none

/-! ### Words and joins -/

lemma wordsAux_good : ∀ (l acc : List Char), (∀ c ∈ acc, isSpace c = false) →
    ∀ w ∈ wordsAux acc l, w ≠ [] ∧ ∀ c ∈ w, isSpace c = false := by
  intro l
  induction l with
  | nil =>
    intro acc hacc w hw
    by_cases h : acc = []
    · simp [wordsAux, h] at hw
    · simp [wordsAux, h] at hw
      subst hw
      refine ⟨by simpa using h, fun c hc => hacc c (List.mem_reverse.mp hc)⟩
  | cons c cs ih =>
    intro acc hacc w hw
    by_cases hc : isSpace c
    · by_cases h : acc = []
      · simp only [wordsAux, hc, if_true, h, if_pos] at hw
        exact ih [] (by simp) w hw
      · simp only [wordsAux, hc, if_true, if_neg h] at hw
        rcases List.mem_cons.mp hw with rfl | hw
        · exact ⟨by simpa using h, fun d hd => hacc d (List.mem_reverse.mp hd)⟩
        · exact ih [] (by simp) w hw
    · simp only [wordsAux, hc, if_false] at hw
      refine ih (c :: acc) ?_ w hw
      intro d hd
      rcases List.mem_cons.mp hd with rfl | hd
      · simpa using hc
      · exact hacc d hd

lemma wordsAux_append_nospace : ∀ (w rest acc : List Char),
    (∀ c ∈ w, isSpace c = false) →
    wordsAux acc (w ++ rest) = wordsAux (w.reverse ++ acc) rest := by
  intro w
  induction w with
  | nil => intro rest acc _; rfl
  | cons c w ih =>
    intro rest acc h
    have hc : isSpace c = false := h c (by simp)
    rw [List.cons_append,
      show wordsAux acc (c :: (w ++ rest)) = wordsAux (c :: acc) (w ++ rest) by
        simp [wordsAux, hc],
      ih rest (c :: acc) (fun d hd => h d (by simp [hd]))]
    simp [List.append_assoc]

lemma wordsAux_joinWords : ∀ (ws : List (List Char)),
    (∀ w ∈ ws, w ≠ [] ∧ ∀ c ∈ w, isSpace c = false) →
    wordsAux [] (joinWords ws) = ws := by
  intro ws
  induction ws with
  | nil => intro _; rfl
  | cons w ws ih =>
    intro h
    have hw := h w (by simp)
    have hwrev : ¬ w.reverse = [] := by simpa using hw.1
    cases ws with
    | nil =>
      have h1 := wordsAux_append_nospace w [] [] hw.2
      simp only [List.append_nil] at h1
      simp [joinWords, h1, wordsAux, hwrev]
    | cons x t =>
      have h1 := wordsAux_append_nospace w (' ' :: joinWords (x :: t)) [] hw.2
      simp only [List.append_nil] at h1
      have hsp : isSpace ' ' = true := by decide
      simp only [joinWords, h1, wordsAux, hsp, if_true, if_neg hwrev,
        List.reverse_reverse]
      exact congrArg _ (ih (fun v hv => h v (by simp [hv])))

/-- Every word returned by `pySplit` is nonempty and whitespace-free. -/
lemma pySplit_good (s : String) :
    ∀ w ∈ pySplit s, w.data ≠ [] ∧ ∀ c ∈ w.data, isSpace c = false := by
  intro w hw
  unfold pySplit at hw
  rcases List.mem_map.mp hw with ⟨l, hl, rfl⟩
  exact wordsAux_good s.data [] (by simp) l hl

/-- Splitting a space-join of nonempty, whitespace-free words returns the
words: `' '.join(ws).split() == ws`. -/
lemma pySplit_pyJoin (ws : List String)
    (h : ∀ w ∈ ws, w.data ≠ [] ∧ ∀ c ∈ w.data, isSpace c = false) :
    pySplit (pyJoin ws) = ws := by
  unfold pySplit pyJoin
  rw [show (String.mk (joinWords (ws.map String.data))).data
        = joinWords (ws.map String.data) from rfl]
  rw [wordsAux_joinWords (ws.map String.data) ?_]
  · rw [List.map_map]
    have : ((fun w => (⟨w⟩ : String)) ∘ String.data) = id := funext fun s => rfl
    rw [this, List.map_id]
  · intro w hw
    rcases List.mem_map.mp hw with ⟨s, hs, rfl⟩
    exact h s hs

/-! ### Whitespace normalization -/

/-- Invariant of collapsed text read with a "previous char was whitespace"
flag: every whitespace character is a plain `' '` and never follows
another whitespace character (nor the flagged position). -/
def collapsedAfter : Bool → List Char → Bool
  | _, [] => true
  | prevSpace, c :: cs =>
    if isSpace c then decide (c = ' ') && !prevSpace && collapsedAfter true cs
    else collapsedAfter false cs

lemma collapseAux_collapsedAfter :
    ∀ (l : List Char) (b : Bool), collapsedAfter b (collapseAux b l) = true := by
  intro l
  induction l with
  | nil => intro b; rfl
  | cons c cs ih =>
    intro b
    by_cases hc : isSpace c
    · cases b with
      | true => simpa [collapseAux, hc] using ih true
      | false => simpa [collapseAux, collapsedAfter, hc] using ih true
    · simp only [collapseAux, hc, if_false, Bool.false_eq_true, collapsedAfter]
      simpa [collapsedAfter, hc] using ih false

lemma collapseAux_of_collapsedAfter :
    ∀ (l : List Char) (b : Bool), collapsedAfter b l = true → collapseAux b l = l := by
  intro l
  induction l with
  | nil => intro b _; rfl
  | cons c cs ih =>
    intro b h
    by_cases hc : isSpace c = true
    · simp only [collapsedAfter, hc, if_true, Bool.and_eq_true, decide_eq_true_eq] at h
      obtain ⟨⟨hsp, hb⟩, hrest⟩ := h
      have hb2 : b = false := by
        cases b
        · rfl
        · simp at hb
      subst hb2
      subst hsp
      simp [collapseAux, hc, ih true hrest]
    · have hc2 : isSpace c = false := by simpa using hc
      simp only [collapsedAfter, hc2] at h
      simp only [Bool.false_eq_true, if_false] at h
      simp [collapseAux, hc2, ih false h]

lemma collapsedAfter_append :
    ∀ (l1 l2 : List Char) (b : Bool), collapsedAfter b (l1 ++ l2) = true →
      collapsedAfter b l1 = true := by
  intro l1
  induction l1 with
  | nil => intro l2 b _; rfl
  | cons c cs ih =>
    intro l2 b h
    by_cases hc : isSpace c
    · simp only [List.cons_append, collapsedAfter, hc, if_true, Bool.and_eq_true] at h ⊢
      exact ⟨h.1, ih l2 true h.2⟩
    · simp only [List.cons_append, collapsedAfter, hc, if_false] at h ⊢
      exact ih l2 false h

/-- After a flagged position (previous char was whitespace), collapsed text
cannot start with whitespace, so a leading `dropWhile` is a no-op and the
flag is irrelevant. -/
lemma collapsedAfter_true_head (l : List Char) (h : collapsedAfter true l = true) :
    l.dropWhile isSpace = l ∧ collapsedAfter false l = true := by
  cases l with
  | nil => exact ⟨rfl, rfl⟩
  | cons c cs =>
    by_cases hc : isSpace c
    · simp [collapsedAfter, hc] at h
    · refine ⟨by simp [List.dropWhile_cons, hc], ?_⟩
      simpa [collapsedAfter, hc] using h

lemma stripLead_collapsedAfter (l : List Char) (h : collapsedAfter false l = true) :
    collapsedAfter false (stripLead l) = true := by
  cases l with
  | nil => rfl
  | cons c cs =>
    by_cases hc : isSpace c
    · simp only [collapsedAfter, hc, if_true, Bool.and_eq_true] at h
      have h2 := collapsedAfter_true_head cs h.2
      simpa [stripLead, List.dropWhile_cons, hc, h2.1] using h2.2
    · simpa [stripLead, List.dropWhile_cons, hc] using h

lemma stripTrail_append (l : List Char) :
    stripTrail l ++ (l.reverse.takeWhile isSpace).reverse = l := by
  rw [stripTrail, ← List.reverse_append, List.takeWhile_append_dropWhile,
    List.reverse_reverse]

lemma stripTrail_idem (l : List Char) : stripTrail (stripTrail l) = stripTrail l := by
  unfold stripTrail
  rw [List.reverse_reverse, List.dropWhile_idempotent]

lemma stripLead_of_prefix (y t : List Char)
    (h : List.dropWhile isSpace (y ++ t) = y ++ t) : stripLead y = y := by
  cases y with
  | nil => rfl
  | cons c ys =>
    have hc : isSpace c = false := by
      by_contra hcc
      have hc : isSpace c = true := by
        cases hh : isSpace c
        · exact absurd hh hcc
        · rfl
      rw [List.cons_append, List.dropWhile_cons, hc, if_pos rfl] at h
      have := congrArg List.length h
      simp only [List.length_cons] at this
      have hle := (List.dropWhile_suffix (l := ys ++ t) isSpace).length_le
      omega
    simp [stripLead, List.dropWhile_cons, hc]

/-- Claim C6 — the sanitizer is idempotent:
`normalize(normalize(x)) == normalize(x)` for every input string. -/
theorem normalize_whitespace_idempotent (s : String) :
    normalize_whitespace (normalize_whitespace s) = normalize_whitespace s := by
  unfold normalize_whitespace
  set m := collapseAux false s.data with hm
  have h1 : collapsedAfter false m = true := collapseAux_collapsedAfter s.data false
  have h2 : collapsedAfter false (stripLead m) = true := stripLead_collapsedAfter m h1
  have h3 : collapsedAfter false (stripTrail (stripLead m)) = true := by
    have := stripTrail_append (stripLead m)
    exact collapsedAfter_append _ _ false (by rw [this]; exact h2)
  have hcollapse : collapseAux false (stripTrail (stripLead m)) =
      stripTrail (stripLead m) := collapseAux_of_collapsedAfter _ false h3
  have hlead : stripLead (stripTrail (stripLead m)) = stripTrail (stripLead m) := by
    have hself : List.dropWhile isSpace (stripLead m) = stripLead m := by
      simpa [stripLead] using List.dropWhile_idempotent (p := isSpace) (l := m)
    refine stripLead_of_prefix _ ((stripLead m).reverse.takeWhile isSpace).reverse ?_
    rw [stripTrail_append (stripLead m)]
    exact hself
  have hdata : (String.mk (stripTrail (stripLead m))).data
      = stripTrail (stripLead m) := rfl
  rw [hdata, hcollapse, hlead, stripTrail_idem]

/-! ### Overlap deduplication -/

lemma overlapLen_eq_findGreatest (previous_words new_words : List String) :
    ∀ k, overlapLen previous_words new_words k
      = Nat.findGreatest
          (fun i => previous_words.drop (previous_words.length - i) = new_words.take i) k := by
  intro k
  induction k with
  | zero => rfl
  | succ k ih =>
    by_cases hp : previous_words.drop (previous_words.length - (k + 1)) = new_words.take (k + 1)
    · simp only [overlapLen, if_pos hp, Nat.findGreatest_succ]
    · simp only [overlapLen, if_neg hp, Nat.findGreatest_succ]
      exact ih

/-- Word-level behavior of `remove_overlap`: the returned words are the new
words with the overlap length (the largest matching `i ≤ k`, or 0)
dropped from the front. -/
lemma remove_overlap_words (new_text : String) (previous_words : List String)
    (overlap_words : ℕ) :
    pySplit (remove_overlap new_text previous_words overlap_words)
      = (pySplit new_text).drop
          (overlapSpec previous_words (pySplit new_text)
            (min (min (pySplit new_text).length previous_words.length) overlap_words)) := by
  by_cases hg : previous_words = [] ∨ new_text = ""
  · rw [remove_overlap, if_pos hg]
    rcases hg with h | h
    · subst h
      simp [overlapSpec]
    · subst h
      have hempty : pySplit "" = [] := by decide
      rw [hempty]
      simp
  · rw [remove_overlap, if_neg hg]
    simp only []
    rw [overlapLen_eq_findGreatest]
    set nw := pySplit new_text with hnw
    set k := min (min nw.length previous_words.length) overlap_words with hk
    set c := Nat.findGreatest
      (fun i => previous_words.drop (previous_words.length - i) = nw.take i) k with hc
    have hgood : ∀ w ∈ nw, w.data ≠ [] ∧ ∀ ch ∈ w.data, isSpace ch = false :=
      pySplit_good new_text
    rw [show overlapSpec previous_words nw k = c from rfl]
    by_cases hpos : c > 0
    · rw [if_pos hpos]
      exact pySplit_pyJoin (nw.drop c) (fun w hw => hgood w (List.drop_subset c nw hw))
    · have h0 : c = 0 := by omega
      rw [if_neg hpos, h0, List.drop_zero]
      exact pySplit_pyJoin nw hgood

/-- Claim C2 — `remove_overlap` strips exactly the largest `i` in `[1, k]`,
`k = min(len(new_words), len(previous_words), overlap_limit)`, such that
the last `i` previous words equal the first `i` new words (0 when no such
`i` exists): the result is the new words with that count dropped, the
count bounds every matching `j ≤ k` from above, and it is 0 or itself a
match; including the two concrete examples of the specification. -/
theorem remove_overlap_strips_largest (new_text : String) (previous_words : List String)
    (overlap_words : ℕ) :
    (pySplit (remove_overlap new_text previous_words overlap_words)
        = (pySplit new_text).drop
            (overlapSpec previous_words (pySplit new_text)
              (min (min (pySplit new_text).length previous_words.length) overlap_words))
      ∧ (∀ j, j ≤ min (min (pySplit new_text).length previous_words.length) overlap_words →
          previous_words.drop (previous_words.length - j) = (pySplit new_text).take j →
          j ≤ overlapSpec previous_words (pySplit new_text)
                (min (min (pySplit new_text).length previous_words.length) overlap_words))
      ∧ (overlapSpec previous_words (pySplit new_text)
            (min (min (pySplit new_text).length previous_words.length) overlap_words) = 0
          ∨ previous_words.drop (previous_words.length
                - overlapSpec previous_words (pySplit new_text)
                    (min (min (pySplit new_text).length previous_words.length) overlap_words))
              = (pySplit new_text).take
                  (overlapSpec previous_words (pySplit new_text)
                    (min (min (pySplit new_text).length previous_words.length) overlap_words))))
    ∧ remove_overlap "jumped over the lazy dog"
        ["the", "quick", "brown", "fox", "jumped", "over"] 5 = "the lazy dog"
    ∧ remove_overlap "brand new content" ["unrelated", "words", "here"] 5
        = "brand new content" := by
  refine ⟨⟨remove_overlap_words new_text previous_words overlap_words, ?_, ?_⟩, ?_, ?_⟩
  · intro j hj hmatch
    exact Nat.le_findGreatest hj hmatch
  · rcases eq_or_ne (overlapSpec previous_words (pySplit new_text)
        (min (min (pySplit new_text).length previous_words.length) overlap_words)) 0 with h | h
    · exact Or.inl h
    · exact Or.inr (Nat.findGreatest_of_ne_zero rfl h)
  · decide
  · decide

/-- Witness for C2: the first concrete example, read off the theorem. -/
theorem remove_overlap_strips_largest_witness :
    remove_overlap "jumped over the lazy dog"
      ["the", "quick", "brown", "fox", "jumped", "over"] 5 = "the lazy dog" :=
  (remove_overlap_strips_largest "jumped over the lazy dog"
    ["the", "quick", "brown", "fox", "jumped", "over"] 5).2.1

/-- Claim C9 — the deduplicator only ever drops at most
`min(len(new_words), len(previous_words), overlap_limit)` leading words:
the result's word sequence is a suffix of the input's word sequence, with
no reordering, alteration or insertion. -/
theorem remove_overlap_result_is_suffix (new_text : String)
    (previous_words : List String) (overlap_words : ℕ) :
    ∃ i ≤ min (min (pySplit new_text).length previous_words.length) overlap_words,
      pySplit (remove_overlap new_text previous_words overlap_words)
        = (pySplit new_text).drop i :=
  ⟨overlapSpec previous_words (pySplit new_text)
      (min (min (pySplit new_text).length previous_words.length) overlap_words),
    Nat.findGreatest_le _,
    remove_overlap_words new_text previous_words overlap_words⟩

/-! ### Repetition filter -/

/-- Claim C3 — `is_repetition` implements exactly the specified policy:
False on empty strings or fewer than 3 new words, else a repetition iff
the count of new words occurring among the trailing
`min(len(previous_words), 10)` previous words, divided by the new word
count, strictly exceeds the threshold. -/
theorem is_repetition_matches_spec (new_text previous_text : String) (threshold : ℚ) :
    is_repetition new_text previous_text threshold
      = repetitionSpec new_text previous_text threshold := by
  unfold is_repetition repetitionSpec
  by_cases h1 : previous_text = "" ∨ new_text = ""
  · simp [h1]
  · simp only [if_neg h1]
    by_cases h2 : (pySplit (pyLower new_text)).length < 3
    · simp [h2]
    · simp only [if_neg h2]
      have hne : pySplit (pyLower new_text) ≠ [] := by
        intro he
        rw [he] at h2
        simp at h2
      have hwin : pySplit (pyJoin ((pySplit (pyLower previous_text)).drop
            ((pySplit (pyLower previous_text)).length
              - min (pySplit (pyLower previous_text)).length 10)))
          = (pySplit (pyLower previous_text)).drop
              ((pySplit (pyLower previous_text)).length
                - min (pySplit (pyLower previous_text)).length 10) :=
        pySplit_pyJoin _
          (fun w hw => pySplit_good _ w (List.drop_subset _ _ hw))
      simp only [hwin, if_neg hne]

/-! ### Energy gate -/

lemma meanSq_replicate_zero (n : ℕ) : meanSq (List.replicate n 0) = 0 := by
  unfold meanSq
  rw [List.map_replicate]
  simp

lemma foldr_max_zero_replicate (n : ℕ) :
    (List.replicate n (0 : ℚ)).foldr max 0 = 0 := by
  induction n with
  | zero => rfl
  | succ n ih => simp [List.replicate_succ, ih]

lemma maxAbs_replicate_zero (n : ℕ) : maxAbs (List.replicate n 0) = 0 := by
  unfold maxAbs
  rw [List.map_replicate]
  simpa using foldr_max_zero_replicate n

lemma maxAbs_one_cons (m : ℕ) : maxAbs ((1 : ℚ) :: List.replicate m 0) = 1 := by
  unfold maxAbs
  rw [List.map_cons, List.map_replicate]
  simp only [abs_one, abs_zero, List.foldr_cons, foldr_max_zero_replicate]
  exact max_eq_left zero_le_one

/-- Claim C4 — for every positive threshold, an all-zero buffer is
rejected under both composition policies, and under the OR policy a buffer
with one full-amplitude sample and the rest zero is accepted whenever
`max_amp > 3 * threshold` (regardless of its RMS). -/
theorem energy_gate_policies (t : ℚ) (n m : ℕ) (ht : 0 < t) :
    has_sufficient_audio_halo (List.replicate n 0) t = false
    ∧ has_sufficient_audio_cpu (List.replicate n 0) t = false
    ∧ (1 > t * 3 → has_sufficient_audio_halo ((1 : ℚ) :: List.replicate m 0) t = true) := by
  have hsq : sqrtGt 0 t = false := by
    unfold sqrtGt
    have hlt : ¬ (t < 0) := by linarith
    have hsqlt : ¬ (t * t < 0) := by nlinarith
    simp [hlt, hsqlt]
  have hmax : ¬ ((0 : ℚ) > t * 3) := by nlinarith
  refine ⟨?_, ?_, ?_⟩
  · unfold has_sufficient_audio_halo
    rw [meanSq_replicate_zero, maxAbs_replicate_zero, hsq]
    simp [hmax]
  · unfold has_sufficient_audio_cpu
    rw [meanSq_replicate_zero, hsq]
    simp
  · intro hpeak
    unfold has_sufficient_audio_halo
    rw [maxAbs_one_cons]
    simp [hpeak]

/-- Witness for C4: at threshold `1/4`, a one-sample peak among zeros is
accepted by the OR-composition gate. -/
theorem energy_gate_policies_witness :
    has_sufficient_audio_halo ((1 : ℚ) :: List.replicate 3 0) (1 / 4) = true :=
  (energy_gate_policies (1 / 4) 2 3 (by norm_num)).2.2 (by norm_num)

/-- Claim C10 — acceptance by the AND-composition gate implies acceptance
by the OR-composition gate at the same threshold: the AND variant is the
more conservative policy. -/
theorem and_gate_subsumed_by_or_gate (xs : List ℚ) (t : ℚ) (hne : xs ≠ [])
    (h : has_sufficient_audio_cpu xs t = true) :
    has_sufficient_audio_halo xs t = true := by
  unfold has_sufficient_audio_cpu at h
  unfold has_sufficient_audio_halo
  rw [Bool.and_eq_true] at h
  rw [h.1, Bool.true_or]

section RatEvaluation

attribute [local semireducible] Rat.mul Rat.inv Rat.add Rat.sub

/-- Witness for C10: the buffer `[1]` at threshold `1/100` passes the AND
gate, hence also the OR gate. -/
theorem and_gate_subsumed_by_or_gate_witness :
    has_sufficient_audio_halo [1] (1 / 100) = true :=
  and_gate_subsumed_by_or_gate [1] (1 / 100) (by decide) (by decide)

end RatEvaluation

/-! ### Session loop -/

/-- Claim C5, amended — on every iteration that ends in one of the four
skip paths (energy-gate rejection, empty sanitized transcription, word
count below the minimum, repetition rejection), all session fields other
than the segment counter and the audio-duration counter are unchanged. -/
theorem skip_iteration_frame (cfg : Config) (st : SessionState) (chunk : List ℚ)
    (raw : String)
    (h : has_sufficient_audio_halo chunk cfg.min_audio_energy = false
      ∨ normalize_whitespace raw = ""
      ∨ (pySplit (normalize_whitespace raw)).length < cfg.min_words
      ∨ is_repetition (normalize_whitespace raw) st.last_text (7 / 10) = true) :
    (step cfg st chunk raw).last_text = st.last_text
    ∧ (step cfg st chunk raw).last_words = st.last_words
    ∧ (step cfg st chunk raw).context_buffer = st.context_buffer
    ∧ (step cfg st chunk raw).total_words = st.total_words
    ∧ (step cfg st chunk raw).first_output = st.first_output
    ∧ (step cfg st chunk raw).displayed = st.displayed := by
  unfold step
  simp only []
  split
  · exact ⟨rfl, rfl, rfl, rfl, rfl, rfl⟩
  next hgate =>
    have hg : has_sufficient_audio_halo chunk cfg.min_audio_energy = true :=
      not_not.mp hgate
    split
    next htext => exact ⟨rfl, rfl, rfl, rfl, rfl, rfl⟩
    next htext =>
      split
      next hwc => exact ⟨rfl, rfl, rfl, rfl, rfl, rfl⟩
      next hwc =>
        split
        next hrep => exact ⟨rfl, rfl, rfl, rfl, rfl, rfl⟩
        next hrep =>
          split
          next hded =>
            exfalso
            rcases h with h | h | h | h
            · rw [h] at hg
              exact Bool.false_ne_true hg
            · exact htext h
            · exact hwc h
            · exact hrep h
          next hded => exact ⟨rfl, rfl, rfl, rfl, rfl, rfl⟩

lemma step_buffer_length_le (cfg : Config) (st : SessionState) (chunk : List ℚ)
    (raw : String) (hle : st.context_buffer.length ≤ cfg.max_context_chunks) :
    (step cfg st chunk raw).context_buffer.length ≤ cfg.max_context_chunks := by
  unfold step
  simp only []
  split
  · exact hle
  · split
    · exact hle
    · split
      · exact hle
      · split
        · exact hle
        · split
          · simp only []
            split
            next hgt =>
              rw [List.length_drop]
              simp only [List.length_append, List.length_singleton]
              omega
            next hngt =>
              simp only [List.length_append, List.length_singleton] at hngt ⊢
              omega
          · exact hle

lemma runSession_buffer_le (cfg : Config) (inputs : List (List ℚ × String)) :
    ∀ st : SessionState, st.context_buffer.length ≤ cfg.max_context_chunks →
      (runSession cfg st inputs).context_buffer.length ≤ cfg.max_context_chunks := by
  induction inputs with
  | nil => intro st h; exact h
  | cons p t ih =>
    intro st h
    rw [runSession, List.foldl_cons]
    exact ih _ (step_buffer_length_le cfg st p.1 p.2 h)

lemma drop_one_append_singleton (l : List String) (a : String) (h : l ≠ []) :
    (l ++ [a]).drop 1 = l.drop 1 ++ [a] := by
  cases l with
  | nil => exact absurd rfl h
  | cons x xs => simp

/-- Claim C7 — starting from the empty buffer, the context window never
exceeds `max_context_chunks` after any number of iterations; and when the
buffer is full, an iteration either leaves it unchanged (a skip) or
appends the new text and evicts exactly the oldest entry (strict FIFO). -/
theorem context_window_bounded_fifo :
    (∀ (cfg : Config) (inputs : List (List ℚ × String)),
        (runSession cfg initialState inputs).context_buffer.length
          ≤ cfg.max_context_chunks)
    ∧ (∀ (cfg : Config) (st : SessionState) (chunk : List ℚ) (raw : String),
        st.context_buffer.length = cfg.max_context_chunks →
        0 < cfg.max_context_chunks →
        (step cfg st chunk raw).context_buffer = st.context_buffer
        ∨ (step cfg st chunk raw).context_buffer
            = st.context_buffer.drop 1 ++ [normalize_whitespace raw]) := by
  constructor
  · intro cfg inputs
    exact runSession_buffer_le cfg inputs initialState (by simp [initialState])
  · intro cfg st chunk raw hfull hpos
    have hne : st.context_buffer ≠ [] := by
      intro hnil
      rw [hnil] at hfull
      simp at hfull
      omega
    unfold step
    simp only []
    split
    · exact Or.inl rfl
    · split
      · exact Or.inl rfl
      · split
        · exact Or.inl rfl
        · split
          · exact Or.inl rfl
          · split
            · refine Or.inr ?_
              simp only []
              split
              next hgt =>
                exact drop_one_append_singleton st.context_buffer
                  (normalize_whitespace raw) hne
              next hngt =>
                exfalso
                simp only [List.length_append, List.length_singleton] at hngt
                omega
            · exact Or.inl rfl

/-- Witness for C7: with the default configuration (window size 4) and a
full buffer, one accepted iteration evicts exactly the oldest entry. -/
theorem context_window_bounded_fifo_witness :
    (step defaultConfig
        { initialState with context_buffer := ["a", "b", "c", "d"] }
        [1] "hello there friend").context_buffer
      = ({ initialState with context_buffer := ["a", "b", "c", "d"] }
          : SessionState).context_buffer
    ∨ (step defaultConfig
        { initialState with context_buffer := ["a", "b", "c", "d"] }
        [1] "hello there friend").context_buffer
      = ({ initialState with context_buffer := ["a", "b", "c", "d"] }
          : SessionState).context_buffer.drop 1
          ++ [normalize_whitespace "hello there friend"] :=
  context_window_bounded_fifo.2 defaultConfig
    { initialState with context_buffer := ["a", "b", "c", "d"] }
    [1] "hello there friend" (by decide) (by decide)

section SessionEvaluation

attribute [local semireducible] Rat.mul Rat.inv Rat.add Rat.sub

/-- Claim C1 — end-to-end assembly: from the initial session state with the
default configuration (minimum word count 1 ≤ 3, overlap lookback 5,
repetition threshold 0.7), the three sanitized segment texts assemble into
the single displayed line. -/
theorem end_to_end_three_segments :
    (step defaultConfig (step defaultConfig (step defaultConfig initialState
        [1] "hello there how") [1] "there how are you") [1] "are you doing today").displayed
      = "hello there how are you doing today" := by decide

/-- Counterexample to C5 as stated: a gate-rejected (all-zero) chunk is a
skip, yet the audio-duration counter still changes, because the source
adds `chunk_duration` before the energy gate runs. -/
theorem skip_iteration_changes_audio_counter :
    has_sufficient_audio_halo [0] defaultConfig.min_audio_energy = false
    ∧ (step defaultConfig initialState [0] "").total_audio_duration
        ≠ initialState.total_audio_duration := by
  constructor
  · decide
  · decide

/-- Witness for C5 (amended): a gate-rejected iteration leaves the
repetition/display/context state untouched. -/
theorem skip_iteration_frame_witness :
    (step defaultConfig initialState [0] "").last_text = initialState.last_text
    ∧ (step defaultConfig initialState [0] "").last_words = initialState.last_words
    ∧ (step defaultConfig initialState [0] "").context_buffer
        = initialState.context_buffer
    ∧ (step defaultConfig initialState [0] "").total_words = initialState.total_words
    ∧ (step defaultConfig initialState [0] "").first_output = initialState.first_output
    ∧ (step defaultConfig initialState [0] "").displayed = initialState.displayed :=
  skip_iteration_frame defaultConfig initialState [0] "" (Or.inl (by decide))

/-! ### Statistics -/

/-- Claim C8 — on stop with positive elapsed time and positive processed
audio, the reported speed factor is `total_audio_seconds / elapsed_seconds`
rendered with two decimal places; for 50 s of audio in 10 s it is `5.00x`. -/
theorem speed_factor_reported (elapsed_time total_audio_duration : ℚ)
    (he : 0 < elapsed_time) (ha : 0 < total_audio_duration) :
    speedFactorReport total_audio_duration elapsed_time
      = some (formatFixed2 (total_audio_duration / elapsed_time) ++ "x")
    ∧ speedFactorReport 50 10 = some "5.00x" := by
  constructor
  · unfold speedFactorReport
    rw [if_pos ha]
  · decide

/-- Witness for C8 at elapsed 10 s, audio 50 s. -/
theorem speed_factor_reported_witness : speedFactorReport 50 10 = some "5.00x" :=
  (speed_factor_reported 10 50 (by norm_num) (by norm_num)).2

end SessionEvaluation
